/-
Verification development for the sitebot chat-relay service.

Shallow embedding of the JavaScript sources:
  * `SecurityManager` (services/api/src/utils/security.js)
  * `SessionManager` (session-manager module)
  * `PerplexityService` (src/services/perplexity-service.js)
  * the WebSocket message handler (handleMessage in the lambda handler)

Strings are modelled by Lean `String`/`List Char`; JavaScript string
indices/lengths coincide with character counts on the ASCII data the
regexes involved operate on.  Machine timestamps are `Nat` seconds.
-/
import Mathlib

namespace Sitebot

/-! ### Generic string machinery mirroring the JavaScript regex operations -/

/-- Whitespace class used by JS `trim()` and the regex class `\s`
(modelled on the ASCII part of the Unicode definition). -/
def isJsWs (c : Char) : Bool :=
  c = ' ' || c = '\t' || c = '\n' || c = '\r' || c = '\x0b' || c = '\x0c'

/-- `String.prototype.trim`: drop leading and trailing whitespace. -/
def trimChars (l : List Char) : List Char :=
  ((l.dropWhile isJsWs).reverse.dropWhile isJsWs).reverse

/-- ASCII upper-casing of a single character. -/
def upChar (c : Char) : Char :=
  if 'a' ≤ c ∧ c ≤ 'z' then Char.ofNat (c.toNat - 32) else c

/-- ASCII lower-casing of a single character (JS `toLowerCase` on the
ASCII range, the only range surviving the filters it is applied after). -/
def lowerChar (c : Char) : Char :=
  if 'A' ≤ c ∧ c ≤ 'Z' then Char.ofNat (c.toNat + 32) else c

/-- Case-insensitive match of one pattern character `p` (given in lower
case) against a subject character, as the regex `i` flag does on ASCII. -/
def charCI (p c : Char) : Bool :=
  c = p || c = upChar p

/-- Case-insensitive "pattern is a prefix of the subject" test. -/
def isPrefixCI : List Char → List Char → Bool
  | [], _ => true
  | _ :: _, [] => false
  | p :: ps, c :: cs => charCI p c && isPrefixCI ps cs

/-- Case-insensitive substring test (regex `/pat/i.test`). -/
def containsCI (pat : List Char) : List Char → Bool
  | [] => isPrefixCI pat []
  | c :: cs => isPrefixCI pat (c :: cs) || containsCI pat cs

/-- Scan for `\s*ch`: zero or more whitespace characters followed by `ch`. -/
def wsThen (ch : Char) : List Char → Bool
  | [] => false
  | c :: cs => if c = ch then true else if isJsWs c then wsThen ch cs else false

/-- The subject starts with `word` (case-insensitively) followed by
`\s*` and then the character `ch` — one regex-match position of
patterns such as `/script\s*:/i`. -/
def matchesWordWs (word : List Char) (ch : Char) (cs : List Char) : Bool :=
  isPrefixCI word cs && wsThen ch (cs.drop word.length)

/-- `/word\s*ch/i.test(subject)`: some position matches. -/
def containsWordWs (word : List Char) (ch : Char) : List Char → Bool
  | [] => false
  | c :: cs => matchesWordWs word ch (c :: cs) || containsWordWs word ch cs

/-- Case-sensitive substring test (JS `String.prototype.includes`). -/
def containsSubList (pat : List Char) : List Char → Bool
  | [] => pat.isEmpty
  | c :: cs => pat.isPrefixOf (c :: cs) || containsSubList pat cs

/-- JS `haystack.includes(needle)`. -/
def strContains (haystack needle : String) : Bool :=
  containsSubList needle.toList haystack.toList

/-- JS `toLowerCase` (ASCII model). -/
def strLower (s : String) : String :=
  (s.toList.map lowerChar).asString

/-- JS `trim` on strings. -/
def trimString (s : String) : String :=
  (trimChars s.toList).asString

/-! ### SecurityManager (services/api/src/utils/security.js) -/

/-- `text.replace(/[<>]/g, '')`. -/
def stripAngles (l : List Char) : List Char :=
  l.filter (fun c => !(c = '<' || c = '>'))

/-- Single left-to-right pass of `text.replace(/javascript:/gi, '')`:
each (case-insensitive) occurrence of `javascript:` is removed and the
scan resumes after it. -/
def stripJsProto : List Char → List Char
  | [] => []
  | c :: cs =>
    if isPrefixCI ("javascript:".toList) (c :: cs) then
      stripJsProto (cs.drop 10)
    else
      c :: stripJsProto cs
termination_by l => l.length
decreasing_by
  · simp only [List.length_drop, List.length_cons]; omega
  · simp only [List.length_cons]; omega

/-- `SecurityManager.sanitizeText`: trim, drop `<`/`>`, drop
`javascript:` occurrences, truncate to 500 characters. -/
def sanitizeText (s : String) : String :=
  ((stripJsProto (stripAngles (trimChars s.toList))).take 500).asString

/-- `SecurityManager.containsHarmfulContent`: the five denylist regexes. -/
def containsHarmfulContent (s : String) : Bool :=
  containsWordWs ("script".toList) ':' s.toList ||
  containsWordWs ("javascript".toList) ':' s.toList ||
  containsCI ("<script".toList) s.toList ||
  containsWordWs ("eval".toList) '(' s.toList ||
  containsWordWs ("document".toList) '.' s.toList

/-- An inbound message object.  `text = none` models an absent or
non-string `text` property; the remaining properties are carried
through the object spread untouched (represented by `sessionId`). -/
structure Message where
  text : Option String
  sessionId : Option String
deriving Repr, DecidableEq

/-- `SecurityManager.validateMessage`: reject missing/empty text (JS
falsiness of `''`), text longer than 500, or text matching the
denylist; on acceptance return the message with sanitized text. -/
def validateMessage (m : Message) : Except String Message :=
  match m.text with
  | none => Except.error "Message text is required and must be a string"
  | some t =>
    if t.length = 0 then
      Except.error "Message text is required and must be a string"
    else if 500 < t.length then
      Except.error "Message too long"
    else if containsHarmfulContent t then
      Except.error "Message contains inappropriate content"
    else
      Except.ok { m with text := some (sanitizeText t) }

/-- Characters admitted by `companyId.replace(/[^a-zA-Z0-9-]/g, '')`. -/
def validCompanyChar (c : Char) : Bool :=
  c.isAlphanum || c = '-'

/-- `SecurityManager.validateCompanyId`.  `none` models a missing or
non-string argument; the empty string is also falsy in JS, so both land
in the `'vanguard'` branch.  Any other string is filtered, lower-cased
and truncated to 50 characters — and returned even when empty. -/
def validateCompanyId : Option String → String
  | none => "vanguard"
  | some s =>
    if s.length = 0 then "vanguard"
    else (((s.toList.filter validCompanyChar).map lowerChar).take 50).asString

/-- The tenant-identifier coercion exactly as the specification words
it: keep only alphanumeric characters and hyphens, lower-case, truncate
to 50 characters. -/
def specCoerceCompanyId (s : String) : String :=
  (((s.toList.filter (fun c => c.isAlphanum || c = '-')).map lowerChar).take 50).asString

/-! ### SessionManager (session-manager module) -/

/-- One session row of the DynamoDB table, keyed by partition key
`CONNECTION#<connectionId>` and sort key `SESSION#<sessionId>`. -/
structure SessionRow where
  connectionId : String
  sessionId : String
  createdAt : Nat
deriving Repr, DecidableEq

/-- The row's sort key. -/
def sortKey (r : SessionRow) : String :=
  "SESSION#" ++ r.sessionId

/-- One step of taking the sort-key-greatest row. -/
def skMaxStep (acc : Option SessionRow) (r : SessionRow) : Option SessionRow :=
  match acc with
  | none => some r
  | some b => if (sortKey b).data < (sortKey r).data then some r else some b

/-- `SessionManager.getSession`: DynamoDB `Query` on the partition key
with `ScanIndexForward: false, Limit: 1` — of all rows of the
connection, the one whose sort key is greatest in the string order. -/
def getSession (table : List SessionRow) (connId : String) : Option SessionRow :=
  (table.filter (fun r => r.connectionId = connId)).foldl skMaxStep none

/-- One step of taking the most recently created row. -/
def createdMaxStep (acc : Option SessionRow) (r : SessionRow) : Option SessionRow :=
  match acc with
  | none => some r
  | some b => if b.createdAt < r.createdAt then some r else some b

/-- The operation as the specification words it: the most-recently-
created session row for the connection (greatest creation timestamp),
or `none`.  Stated for comparison with `getSession`. -/
def specMostRecentlyCreated (table : List SessionRow) (connId : String) :
    Option SessionRow :=
  (table.filter (fun r => r.connectionId = connId)).foldl createdMaxStep none

/-- A DynamoDB attribute value (the shapes this service stores). -/
inductive AttrVal where
  | str (s : String)
  | num (n : Nat)
deriving Repr, DecidableEq

/-- The fixed session TTL window (`this.sessionTTL = 3600`). -/
def sessionTTL : Nat := 3600

/-- Base item written by `SessionManager.createConnection` before the
`...initialData` spread. -/
def createConnectionBaseItem (connectionId uuid : String) (timestamp : Nat) :
    List (String × AttrVal) :=
  [ ("PK", AttrVal.str ("CONNECTION#" ++ connectionId)),
    ("SK", AttrVal.str ("SESSION#" ++ uuid)),
    ("ConnectionId", AttrVal.str connectionId),
    ("SessionId", AttrVal.str uuid),
    ("CreatedAt", AttrVal.num timestamp),
    ("LastActivity", AttrVal.num timestamp),
    ("TTL", AttrVal.num (timestamp + sessionTTL)) ]

/-- JS object spread `{ ...base, ...ext }`: a key bound in `ext`
overrides the binding in `base` (lookup semantics of the object). -/
def spreadObj (base ext : List (String × AttrVal)) : List (String × AttrVal) :=
  base.filter (fun kv => (ext.lookup kv.1).isNone) ++ ext

/-- `SessionManager.createConnection`: the generated uuid and clock are
explicit inputs; returns the session id handed back to the caller and
the item stored in the table. -/
def createConnection (connectionId uuid : String) (timestamp : Nat)
    (initialData : List (String × AttrVal)) :
    String × List (String × AttrVal) :=
  (uuid, spreadObj (createConnectionBaseItem connectionId uuid timestamp) initialData)

/-- The expression-attribute-value placeholder generated for an update
key: `':' + key.toLowerCase()`. -/
def phName (k : String) : String :=
  ":" ++ strLower k

/-- Value bound to a placeholder when `updateSession` runs: the
`ExpressionAttributeValues` object first binds `:lastActivity` and
`:ttl`, then the per-key loop assigns `':'+key.toLowerCase()`, later
assignments overwriting earlier ones. -/
def placeholderValue (updateData : List (String × AttrVal)) (now : Nat)
    (ph : String) : Option AttrVal :=
  match updateData.reverse.find? (fun kv => phName kv.1 = ph) with
  | some kv => some kv.2
  | none =>
    if ph = ":lastActivity" then some (AttrVal.num now)
    else if ph = ":ttl" then some (AttrVal.num (now + sessionTTL))
    else none

/-- The `SET` clauses of the update expression, in order: one
`#key = :key.toLowerCase()` per update key, then the fixed
`LastActivity = :lastActivity` and `#TTL = :ttl`. -/
def setClauses (updateData : List (String × AttrVal)) : List (String × String) :=
  updateData.map (fun kv => (kv.1, phName kv.1)) ++
    [("LastActivity", ":lastActivity"), ("TTL", ":ttl")]

/-- Set one attribute of an item (assoc-list with lookup semantics). -/
def setAttr (attrs : List (String × AttrVal)) (k : String) (v : AttrVal) :
    List (String × AttrVal) :=
  (k, v) :: attrs.filter (fun kv => kv.1 != k)

/-- `SessionManager.updateSession` on an existing item: DynamoDB rejects
an `UpdateExpression` whose `SET` paths overlap (which happens exactly
when `updateData` itself contains a `LastActivity` or `TTL` key);
otherwise every clause assigns its placeholder's value. -/
def updateSession (attrs : List (String × AttrVal))
    (updateData : List (String × AttrVal)) (now : Nat) :
    Except String (List (String × AttrVal)) :=
  if ((setClauses updateData).map Prod.fst).Nodup then
    Except.ok ((setClauses updateData).foldl
      (fun acc c => setAttr acc c.1 ((placeholderValue updateData now c.2).getD (AttrVal.num 0)))
      attrs)
  else
    Except.error "ValidationException: Two document paths overlap with each other"

/-! ### PerplexityService (src/services/perplexity-service.js) -/

/-- One stored (user message, assistant reply, timestamp) exchange. -/
structure Exchange where
  user : String
  assistant : String
  timestamp : String
deriving Repr, DecidableEq

/-- One role-tagged turn of the completion request. -/
structure ChatMsg where
  role : String
  content : String
deriving Repr, DecidableEq

/-- A tenant configuration bundle (the fields the service reads; the
numeric generation parameters `maxResponseTokens`/`temperature` only
feed the request options and are not modelled). -/
structure CompanyConfig where
  name : String
  description : String
  industry : String
  brandMessage : String
  urls : List String
  strategicPriorities : List String
  supportedTopics : List String
  responseStyle : String
deriving Repr, DecidableEq

/-- `` xs.map(x => `- ${x}`).join('\n') ``. -/
def bulletList (xs : List String) : String :=
  String.intercalate "\n" (xs.map (fun x => "- " ++ x))

/-- `PerplexityService.buildSystemPrompt`: the template literal, with
each interpolation spliced in. -/
def buildSystemPrompt (cfg : CompanyConfig) : String :=
  "You are a knowledgeable assistant for " ++ cfg.name ++ ". \n\n" ++
  "COMPANY CONTEXT:\n" ++
  "- Company: " ++ cfg.name ++ "\n" ++
  "- Description: " ++ cfg.description ++ "\n" ++
  "- Industry: " ++ cfg.industry ++ "\n" ++
  "- Brand Message: " ++ cfg.brandMessage ++ "\n\n" ++
  "INFORMATION SOURCES:\n" ++
  "Use only publicly available information from these official sources:\n" ++
  bulletList cfg.urls ++ "\n\n" ++
  "STRATEGIC PRIORITIES:\n" ++
  "When relevant to user questions, incorporate information about these strategic priorities:\n" ++
  bulletList cfg.strategicPriorities ++ "\n\n" ++
  "SUPPORTED TOPICS:\n" ++
  "Focus on these areas:\n" ++
  bulletList cfg.supportedTopics ++ "\n\n" ++
  "RESPONSE STYLE: " ++ cfg.responseStyle ++ "\n\n" ++
  "GUIDELINES:\n" ++
  "- Provide accurate, helpful information based on official company sources\n" ++
  "- When discussing strategic priorities, explain how they benefit customers\n" ++
  "- If asked about priorities specifically, provide detailed explanations with examples\n" ++
  "- Stay within your knowledge domain and refer to official sources when appropriate\n" ++
  "- Be concise but comprehensive\n" ++
  "- Maintain a " ++ cfg.responseStyle ++ " tone throughout responses\n" ++
  "- If you cannot find specific information, acknowledge limitations and suggest official resources\n\n" ++
  "Remember: Always prioritize accuracy over completeness and cite official company sources when available."

/-- The user/assistant turn pair pushed for one historical exchange. -/
def pairTurns (es : List Exchange) : List ChatMsg :=
  es.foldr (fun e acc => ⟨"user", e.user⟩ :: ⟨"assistant", e.assistant⟩ :: acc) []

/-- JS `arr.slice(-n)`: the last at most `n` elements. -/
def takeLast (n : Nat) (l : List α) : List α :=
  l.drop (l.length - n)

/-- `PerplexityService.buildMessageContext`: system turn, then the last
3 exchanges as user/assistant pairs, then the new user message. -/
def buildMessageContext (systemPrompt : String) (conversationHistory : List Exchange)
    (userMessage : String) : List ChatMsg :=
  ⟨"system", systemPrompt⟩ :: pairTurns (takeLast 3 conversationHistory) ++
    [⟨"user", userMessage⟩]

/-- The failure object an attempt can produce: optional HTTP status and
an error message. -/
structure ApiError where
  status : Option Nat
  message : String
deriving Repr, DecidableEq

/-- `PerplexityService.isRetryableError`. -/
def isRetryableError (e : ApiError) : Bool :=
  (match e.status with
   | some s => [429, 500, 502, 503, 504].contains s
   | none => false) ||
  strContains e.message "timeout" || strContains e.message "network"

/-- `this.maxRetries = 3`. -/
def maxRetries : Nat := 3

/-- `this.retryDelay = 1000` (milliseconds). -/
def retryDelay : Nat := 1000

/-- `PerplexityService.makeApiRequest`, run against an oracle giving
the outcome of each numbered attempt.  Returns the final outcome (the
successful completion is `trim`med), the number of attempts actually
made, and the list of backoff delays awaited (milliseconds). -/
def makeApiRequest (resp : Nat → Except ApiError String) (attempt : Nat) :
    Except ApiError String × Nat × List Nat :=
  match resp attempt with
  | Except.ok content => (Except.ok (trimString content), 1, [])
  | Except.error e =>
    if h : attempt < maxRetries ∧ isRetryableError e then
      let r := makeApiRequest resp (attempt + 1)
      (r.1, r.2.1 + 1, retryDelay * attempt :: r.2.2)
    else
      (Except.error e, 1, [])
termination_by maxRetries - attempt
decreasing_by
  have := h.1
  simp only [maxRetries] at *
  omega

/-- `companyConfig.urls[0] || 'our website'` (JS falsiness: a missing
element or the empty string both fall back). -/
def primaryUrl (urls : List String) : String :=
  match urls with
  | [] => "our website"
  | u :: _ => if u = "" then "our website" else u

/-- `PerplexityService.getFallbackResponse`: `urls[0] || 'our website'`
spliced into the fixed apology template. -/
def getFallbackResponse (cfg : CompanyConfig) : String :=
  "I apologize, but I\x27m experiencing technical difficulties right now. For immediate assistance, please visit our official website at " ++
  primaryUrl cfg.urls ++
  " or contact our support team directly. I\x27ll be back online shortly to help with your " ++
  cfg.name ++ " questions."

/-- The four canned local-development replies; `Math.random` is
modelled by the explicit index `r`. -/
def getLocalDevelopmentResponse (userMessage : String) (cfg : CompanyConfig)
    (r : Fin 4) : String :=
  [ "Hello! This is a local development response for " ++ cfg.name ++
      ". I\x27m here to help with your questions about " ++ strLower cfg.name ++
      " investments, funds, and services.",
    "Thanks for your message: \"" ++ userMessage ++
      "\". In a real deployment, I would provide detailed information about " ++
      cfg.name ++ "\x27s investment products and services.",
    "This is a development environment for the " ++ cfg.name ++
      " chatbot. I can help you with questions about our low-cost investing philosophy, retirement planning, and account management.",
    "Welcome to the " ++ cfg.name ++
      " assistant! I\x27m currently running in development mode. I can help you understand our investor-owned structure and long-term wealth building strategies." ]
  |>.getD r.1 ""

/-- The designated offline/local credential. -/
def dummyApiKey : String := "dummy-key-for-local-dev"

/-- What one `generateResponse` invocation did: the reply handed to the
caller, how many external attempts were made, the message list
submitted (none in local-development mode), and the awaited delays. -/
structure GenResult where
  reply : String
  apiCalls : Nat
  submitted : Option (List ChatMsg)
  delays : List Nat
deriving Repr

/-- `PerplexityService.generateResponse`: local-development
short-circuit on the dummy key, otherwise the retried API call with the
fallback reply on any error. -/
def generateResponse (apiKey : String) (resp : List ChatMsg → Nat → Except ApiError String)
    (userMessage : String) (conversationHistory : List Exchange)
    (cfg : CompanyConfig) (r : Fin 4) : GenResult :=
  if apiKey = dummyApiKey then
    ⟨getLocalDevelopmentResponse userMessage cfg r, 0, none, []⟩
  else
    let messages := buildMessageContext (buildSystemPrompt cfg) conversationHistory userMessage
    match makeApiRequest (resp messages) 1 with
    | (Except.ok s, n, ds) => ⟨s, n, some messages, ds⟩
    | (Except.error _, n, ds) => ⟨getFallbackResponse cfg, n, some messages, ds⟩

/-! ### Message handler (handleMessage in the WebSocket lambda) -/

/-- The history update performed per message:
`[...conversationHistory.slice(-8), newExchange]`. -/
def updateHistory (conversationHistory : List Exchange) (e : Exchange) :
    List Exchange :=
  takeLast 8 conversationHistory ++ [e]

/-- Stored history after a sequence of message events on one
connection, starting from the empty history seeded at connect. -/
def historyAfter (exchanges : List Exchange) : List Exchange :=
  exchanges.foldl updateHistory []

/-! ## Shared lemmas -/

theorem takeLast_length (n : Nat) (l : List α) :
    (takeLast n l).length = min n l.length := by
  simp only [takeLast, List.length_drop]
  omega

theorem takeLast_takeLast (m n : Nat) (l : List α) :
    takeLast m (takeLast n l) = takeLast (min m n) l := by
  simp only [takeLast, List.length_drop, List.drop_drop]
  congr 1
  omega

theorem takeLast_concat_nine (l : List α) (e : α) :
    takeLast 9 (l ++ [e]) = takeLast 8 l ++ [e] := by
  have h1 : (l.length + 1) - 9 = l.length - 8 := by omega
  have h2 : l.length - 8 ≤ l.length := by omega
  simp only [takeLast, List.length_append, List.length_cons, List.length_nil,
    Nat.zero_add, h1, List.drop_append_eq_append_drop]
  have h3 : l.length - 8 - l.length = 0 := by omega
  rw [h3, List.drop_zero]

theorem historyAfter_concat (es : List Exchange) (e : Exchange) :
    historyAfter (es ++ [e]) = updateHistory (historyAfter es) e := by
  simp [historyAfter, List.foldl_append]

theorem historyAfter_eq_takeLast (es : List Exchange) :
    historyAfter es = takeLast 9 es := by
  induction es using List.reverseRecOn with
  | nil => rfl
  | append_singleton l e ih =>
    rw [historyAfter_concat, ih, takeLast_concat_nine, updateHistory,
      takeLast_takeLast]
    norm_num

/-! ## C1: stored conversation-history bound -/

/-- Counterexample to C1 as stated: after nine sequential messages on
one connection the stored history has length 9, not at most 8 — the
handler keeps the last 8 previous exchanges and then appends the new
one. -/
theorem history_bound_counterexample :
    ¬ (historyAfter (List.replicate 9 ⟨"q", "a", "t"⟩)).length ≤ 8 := by
  decide

/-- C1 (amended): the stored history after any number of message events
is exactly the last at most 9 exchanges, so its length is
`min (number of messages) 9`: it reaches 9 on the ninth message (no
eviction yet) and from the tenth message on the oldest stored exchange
is evicted each time, keeping the length at 9. -/
theorem history_window_nine (exchanges : List Exchange) :
    historyAfter exchanges = takeLast 9 exchanges
    ∧ (historyAfter exchanges).length = min exchanges.length 9 := by
  refine ⟨historyAfter_eq_takeLast exchanges, ?_⟩
  rw [historyAfter_eq_takeLast, takeLast_length]
  omega

/-! ## C8: shape of the submitted message list -/

theorem pairTurns_length (es : List Exchange) :
    (pairTurns es).length = 2 * es.length := by
  induction es with
  | nil => rfl
  | cons e es ih => simp [pairTurns] at ih ⊢; omega

theorem takeLast_eq_reverse_take (n : Nat) (l : List α) :
    takeLast n l = (l.reverse.take n).reverse := by
  induction l using List.reverseRecOn generalizing n with
  | nil => simp [takeLast]
  | append_singleton l e ih =>
    cases n with
    | zero =>
      simp [takeLast]
    | succ n =>
      have h1 : (l ++ [e]).length - (n + 1) = l.length - n := by
        simp only [List.length_append, List.length_cons, List.length_nil]
        omega
      rw [takeLast, h1, List.drop_append_eq_append_drop]
      have h3 : l.length - n - l.length = 0 := by omega
      rw [h3, List.drop_zero, List.reverse_append, List.reverse_cons,
        List.reverse_nil, List.nil_append, List.singleton_append,
        List.take_succ_cons, List.reverse_cons, ← ih n, takeLast]

/-- C8: the message list built for the completion API is exactly one
system turn, then the last at most 3 historical exchanges oldest-first
as user/assistant pairs, then the new user message; its length is
`2 + 2·min 3 |history|`; and every non-local `generateResponse`
invocation submits exactly this list. -/
theorem message_context_shape (sys userMsg : String) (hist : List Exchange) :
    buildMessageContext sys hist userMsg
      = ⟨"system", sys⟩ :: pairTurns ((hist.reverse.take 3).reverse) ++ [⟨"user", userMsg⟩]
    ∧ (buildMessageContext sys hist userMsg).length = 2 + 2 * min 3 hist.length
    ∧ (buildMessageContext sys hist userMsg).head? = some ⟨"system", sys⟩
    ∧ (buildMessageContext sys hist userMsg).getLast? = some ⟨"user", userMsg⟩
    ∧ (∀ (apiKey : String) (resp : List ChatMsg → Nat → Except ApiError String)
        (cfg : CompanyConfig) (r : Fin 4), apiKey ≠ dummyApiKey →
        (generateResponse apiKey resp userMsg hist cfg r).submitted
          = some (buildMessageContext (buildSystemPrompt cfg) hist userMsg)) := by
  refine ⟨by rw [buildMessageContext, takeLast_eq_reverse_take], ?_, rfl, ?_, ?_⟩
  · simp only [buildMessageContext, List.length_cons, List.length_append,
      pairTurns_length, takeLast_length, List.length_cons, List.length_nil]
    omega
  · show ((⟨"system", sys⟩ :: pairTurns (takeLast 3 hist)) ++
        [(⟨"user", userMsg⟩ : ChatMsg)]).getLast? = some ⟨"user", userMsg⟩
    rw [List.getLast?_concat]
  · intro apiKey resp cfg r hk
    simp only [generateResponse, if_neg hk]
    rcases hmk : makeApiRequest (resp (buildMessageContext (buildSystemPrompt cfg) hist userMsg)) 1
      with ⟨res, n, ds⟩
    cases res <;> rfl

/-- Witness for C8's submission conjunct at a concrete invocation. -/
theorem message_context_shape_witness :
    (generateResponse "real-key" (fun _ _ => Except.error ⟨some 400, "Bad Request"⟩)
        "hi" [] ⟨"Vanguard", "d", "i", "b", [], [], [], "s"⟩ 0).submitted
      = some (buildMessageContext
          (buildSystemPrompt ⟨"Vanguard", "d", "i", "b", [], [], [], "s"⟩) [] "hi") :=
  (message_context_shape "SYS" "hi" []).2.2.2.2 "real-key"
    (fun _ _ => Except.error ⟨some 400, "Bad Request"⟩)
    ⟨"Vanguard", "d", "i", "b", [], [], [], "s"⟩ 0 (by decide)

/-! ## C10: dummy-key local mode short-circuits but is nondeterministic -/

/-- C10: with the designated offline/local credential,
`generateResponse` makes no external API attempt and is independent of
the external client, but it is not deterministic: the same user text,
history and tenant configuration can yield two different replies for
different draws of the random template index. -/
theorem local_mode_shortcircuit_nondeterministic :
    (∀ (resp resp2 : List ChatMsg → Nat → Except ApiError String) (u : String)
        (h : List Exchange) (cfg : CompanyConfig) (r : Fin 4),
      (generateResponse dummyApiKey resp u h cfg r).apiCalls = 0
      ∧ (generateResponse dummyApiKey resp u h cfg r).submitted = none
      ∧ generateResponse dummyApiKey resp u h cfg r
          = generateResponse dummyApiKey resp2 u h cfg r)
    ∧ (generateResponse dummyApiKey (fun _ _ => Except.error ⟨none, ""⟩) "hi" []
        ⟨"Vanguard", "d", "i", "b", [], [], [], "s"⟩ 1).reply
      ≠ (generateResponse dummyApiKey (fun _ _ => Except.error ⟨none, ""⟩) "hi" []
        ⟨"Vanguard", "d", "i", "b", [], [], [], "s"⟩ 2).reply := by
  constructor
  · intro resp resp2 u h cfg r
    simp [generateResponse]
  · decide

/-! ## C6: tenant-identifier validation and its fallback -/

/-- Counterexample to C6 as stated: the input `"!!!"` coerces to the
empty identifier, and `validateCompanyId` returns that empty string
instead of falling back to the default tenant. -/
theorem company_id_empty_not_fallback :
    validateCompanyId (some "!!!") = "" ∧ validateCompanyId (some "!!!") ≠ "vanguard" := by
  decide

/-- C6 (amended): the coercion (keep alphanumerics and hyphens,
lower-case, truncate to 50) is applied to every non-empty string input,
and its result — even when empty — is returned as is; the `'vanguard'`
fallback is taken only for a missing/non-string/empty input. -/
theorem company_id_fallback_only_on_falsy :
    validateCompanyId none = "vanguard"
    ∧ validateCompanyId (some "") = "vanguard"
    ∧ (∀ s : String, s ≠ "" → validateCompanyId (some s) = specCoerceCompanyId s)
    ∧ specCoerceCompanyId "!!!" = "" := by
  refine ⟨rfl, by decide, ?_, by decide⟩
  intro s hs
  have hlen : ¬ s.length = 0 := by
    intro h
    refine hs ?_
    cases s with
    | mk data =>
      have hd : data = [] := List.length_eq_zero.mp h
      rw [hd]
  simp only [validateCompanyId, specCoerceCompanyId, if_neg hlen]
  rfl

/-- Witness for the amended C6 at a concrete input. -/
theorem company_id_fallback_only_on_falsy_witness :
    validateCompanyId (some "Ab-9!!") = "ab-9" := by
  have h := company_id_fallback_only_on_falsy.2.2.1 "Ab-9!!" (by decide)
  rw [h]
  decide

/-! ## Association-list lookup lemmas -/

theorem lookup_append {β : Type} (l1 l2 : List (String × β)) (k : String) :
    (l1 ++ l2).lookup k = (l1.lookup k).or (l2.lookup k) := by
  induction l1 with
  | nil => simp [List.lookup]
  | cons hd tl ih =>
    obtain ⟨a, b⟩ := hd
    simp only [List.cons_append, List.lookup]
    cases hab : k == a with
    | true => simp
    | false => simpa using ih

theorem lookup_filter_isNone {β : Type} (base ext : List (String × β)) (k : String)
    (v : β) (h : ext.lookup k = some v) :
    (base.filter (fun kv => (ext.lookup kv.1).isNone)).lookup k = none := by
  induction base with
  | nil => rfl
  | cons hd tl ih =>
    obtain ⟨a, b⟩ := hd
    by_cases hka : k = a
    · subst hka
      simp [List.filter_cons, h, ih]
    · have hka' : (k == a) = false := by simpa using hka
      cases hfa : (ext.lookup a).isNone with
      | true => simp [List.filter_cons, hfa, List.lookup, hka', ih]
      | false => simp [List.filter_cons, hfa, ih]

theorem lookup_filter_of_none {β : Type} (base ext : List (String × β)) (k : String)
    (h : ext.lookup k = none) :
    (base.filter (fun kv => (ext.lookup kv.1).isNone)).lookup k = base.lookup k := by
  induction base with
  | nil => rfl
  | cons hd tl ih =>
    obtain ⟨a, b⟩ := hd
    by_cases hka : k = a
    · subst hka
      simp [List.filter_cons, h, List.lookup, ih]
    · have hka' : (k == a) = false := by simpa using hka
      cases hfa : (ext.lookup a).isNone with
      | true => simp [List.filter_cons, hfa, List.lookup, hka', ih]
      | false => simp [List.filter_cons, hfa, List.lookup, hka', ih]

theorem spreadObj_lookup_override (base ext : List (String × AttrVal)) (k : String)
    (v : AttrVal) (h : ext.lookup k = some v) :
    (spreadObj base ext).lookup k = some v := by
  rw [spreadObj, lookup_append, lookup_filter_isNone base ext k v h, h]
  rfl

theorem spreadObj_lookup_base (base ext : List (String × AttrVal)) (k : String)
    (h : ext.lookup k = none) :
    (spreadObj base ext).lookup k = base.lookup k := by
  rw [spreadObj, lookup_append, lookup_filter_of_none base ext k h, h, Option.or_none]

/-! ## C9: initialData spread overrides the adapter-computed fields -/

/-- C9: the record stored by `createConnection` is the adapter's base
fields overridden by `initialData`: any key bound there — `TTL`,
`SessionId`, `PK`, … — replaces the adapter-computed value; the base
`TTL`/`SessionId` survive only when `initialData` does not bind them,
and the session identifier returned to the caller is always the freshly
generated one, which can therefore differ from the `SessionId` actually
stored. -/
theorem createConnection_spread_override (connId uuid : String) (ts : Nat)
    (init : List (String × AttrVal)) :
    (createConnection connId uuid ts init).1 = uuid
    ∧ (∀ k v, init.lookup k = some v →
        (createConnection connId uuid ts init).2.lookup k = some v)
    ∧ (init.lookup "TTL" = none →
        (createConnection connId uuid ts init).2.lookup "TTL"
          = some (AttrVal.num (ts + sessionTTL)))
    ∧ (init.lookup "SessionId" = none →
        (createConnection connId uuid ts init).2.lookup "SessionId"
          = some (AttrVal.str uuid)) := by
  refine ⟨rfl, ?_, ?_, ?_⟩
  · intro k v h
    exact spreadObj_lookup_override _ _ _ _ h
  · intro h
    show (spreadObj (createConnectionBaseItem connId uuid ts) init).lookup "TTL" = _
    rw [spreadObj_lookup_base _ _ _ h]
    rfl
  · intro h
    show (spreadObj (createConnectionBaseItem connId uuid ts) init).lookup "SessionId" = _
    rw [spreadObj_lookup_base _ _ _ h]
    rfl

/-- Witness for C9: a caller-supplied `TTL` and `SessionId` defeat the
computed expiry and the generated identifier in the stored record,
while the caller still receives the generated identifier. -/
theorem createConnection_spread_override_witness :
    (createConnection "conn" "uuid-1" 1000
        [("TTL", AttrVal.num 7), ("SessionId", AttrVal.str "evil")]).2.lookup "TTL"
      = some (AttrVal.num 7)
    ∧ (createConnection "conn" "uuid-1" 1000
        [("TTL", AttrVal.num 7), ("SessionId", AttrVal.str "evil")]).2.lookup "SessionId"
      = some (AttrVal.str "evil")
    ∧ (createConnection "conn" "uuid-1" 1000
        [("TTL", AttrVal.num 7), ("SessionId", AttrVal.str "evil")]).1 = "uuid-1" := by
  have h := createConnection_spread_override "conn" "uuid-1" 1000
    [("TTL", AttrVal.num 7), ("SessionId", AttrVal.str "evil")]
  exact ⟨h.2.1 "TTL" (AttrVal.num 7) (by decide),
    h.2.1 "SessionId" (AttrVal.str "evil") (by decide), h.1⟩

/-! ## C2: which session row the lookup resolves to -/

theorem skMax_some (rows : List SessionRow) (b : SessionRow) :
    ∃ m, rows.foldl skMaxStep (some b) = some m := by
  induction rows generalizing b with
  | nil => exact ⟨b, rfl⟩
  | cons r rs ih =>
    simp only [List.foldl_cons, skMaxStep]
    by_cases hbr : (sortKey b).data < (sortKey r).data
    · rw [if_pos hbr]; exact ih r
    · rw [if_neg hbr]; exact ih b

theorem skMax_spec (rows : List SessionRow) (b m : SessionRow)
    (h : rows.foldl skMaxStep (some b) = some m) :
    (m = b ∨ m ∈ rows) ∧ ¬ (sortKey m).data < (sortKey b).data
      ∧ ∀ r ∈ rows, ¬ (sortKey m).data < (sortKey r).data := by
  induction rows generalizing b with
  | nil =>
    simp only [List.foldl_nil, Option.some.injEq] at h
    subst h
    exact ⟨Or.inl rfl, lt_irrefl _, by simp⟩
  | cons r rs ih =>
    simp only [List.foldl_cons, skMaxStep] at h
    by_cases hbr : (sortKey b).data < (sortKey r).data
    · rw [if_pos hbr] at h
      obtain ⟨hmem, hnb, hall⟩ := ih r h
      refine ⟨?_, ?_, ?_⟩
      · rcases hmem with rfl | hm
        · exact Or.inr (List.mem_cons_self _ _)
        · exact Or.inr (List.mem_cons_of_mem _ hm)
      · intro hmb
        exact hnb (lt_trans hmb hbr)
      · intro x hx
        rcases List.mem_cons.mp hx with rfl | hxs
        · exact hnb
        · exact hall x hxs
    · rw [if_neg hbr] at h
      obtain ⟨hmem, hnb, hall⟩ := ih b h
      refine ⟨?_, hnb, ?_⟩
      · rcases hmem with rfl | hm
        · exact Or.inl rfl
        · exact Or.inr (List.mem_cons_of_mem _ hm)
      · intro x hx
        rcases List.mem_cons.mp hx with rfl | hxs
        · intro hmr
          exact hnb (lt_of_lt_of_le hmr (not_lt.mp hbr))
        · exact hall x hxs

/-- Counterexample to C2 as stated: with two rows for one connection,
`getSession` returns the row whose sort key `SESSION#zzz` is
lexicographically greatest even though the other row was created later,
so it does not return the most-recently-created row. -/
theorem getSession_not_most_recent :
    getSession [⟨"c", "zzz", 1⟩, ⟨"c", "aaa", 2⟩] "c" = some ⟨"c", "zzz", 1⟩
    ∧ specMostRecentlyCreated [⟨"c", "zzz", 1⟩, ⟨"c", "aaa", 2⟩] "c"
        = some ⟨"c", "aaa", 2⟩
    ∧ getSession [⟨"c", "zzz", 1⟩, ⟨"c", "aaa", 2⟩] "c"
        ≠ specMostRecentlyCreated [⟨"c", "zzz", 1⟩, ⟨"c", "aaa", 2⟩] "c" := by
  refine ⟨by decide, by decide, by decide⟩

/-- C2 (amended): `getSession` returns `none` exactly when the
connection has no stored row, and otherwise returns a row of that
connection whose sort key `SESSION#<sessionId>` is lexicographically
maximal — which coincides with "most recently created" only if session
identifiers happen to increase over time (they are random UUIDs, so
this is not guaranteed). -/
theorem getSession_lexmax (table : List SessionRow) (connId : String) :
    (getSession table connId = none
        ↔ table.filter (fun r => r.connectionId = connId) = [])
    ∧ ∀ m, getSession table connId = some m →
        m ∈ table.filter (fun r => r.connectionId = connId)
        ∧ ∀ r ∈ table.filter (fun r => r.connectionId = connId),
            ¬ (sortKey m).data < (sortKey r).data := by
  cases hf : table.filter (fun r => r.connectionId = connId) with
  | nil =>
    constructor
    · rw [getSession, hf]
      simp
    · intro m hm
      rw [getSession, hf] at hm
      simp at hm
  | cons r rs =>
    constructor
    · constructor
      · intro h
        rw [getSession, hf, List.foldl_cons] at h
        obtain ⟨m, hm⟩ := skMax_some rs r
        rw [show skMaxStep none r = some r from rfl, hm] at h
        cases h
      · intro h
        exact absurd h (List.cons_ne_nil r rs)
    · intro m hm
      rw [getSession, hf, List.foldl_cons,
        show skMaxStep none r = some r from rfl] at hm
      obtain ⟨hmem, hnb, hall⟩ := skMax_spec rs r m hm
      refine ⟨?_, ?_⟩
      · rcases hmem with rfl | hmr
        · exact List.mem_cons_self _ _
        · exact List.mem_cons_of_mem _ hmr
      · intro x hx
        rcases List.mem_cons.mp hx with rfl | hxs
        · exact hnb
        · exact hall x hxs

/-- Witness for the amended C2 at a concrete store. -/
theorem getSession_lexmax_witness :
    (⟨"c", "zzz", 1⟩ : SessionRow) ∈
        ([⟨"c", "zzz", 1⟩, ⟨"c", "aaa", 2⟩] : List SessionRow).filter
          (fun r => r.connectionId = "c")
    ∧ ¬ (sortKey ⟨"c", "zzz", 1⟩).data < (sortKey ⟨"c", "aaa", 2⟩).data := by
  have h := (getSession_lexmax [⟨"c", "zzz", 1⟩, ⟨"c", "aaa", 2⟩] "c").2
    ⟨"c", "zzz", 1⟩ (by decide)
  exact ⟨h.1, h.2 ⟨"c", "aaa", 2⟩ (by decide)⟩

/-! ## C3: retry policy of the external completion call -/

theorem makeApiRequest_ok (resp : Nat → Except ApiError String) (a : Nat)
    (content : String) (h : resp a = Except.ok content) :
    makeApiRequest resp a = (Except.ok (trimString content), 1, []) := by
  rw [makeApiRequest.eq_def, h]

theorem makeApiRequest_stop (resp : Nat → Except ApiError String) (a : Nat)
    (e : ApiError) (h : resp a = Except.error e)
    (hna : ¬(a < maxRetries ∧ isRetryableError e = true)) :
    makeApiRequest resp a = (Except.error e, 1, []) := by
  rw [makeApiRequest.eq_def, h]
  exact dif_neg hna

theorem makeApiRequest_retry (resp : Nat → Except ApiError String) (a : Nat)
    (e : ApiError) (h : resp a = Except.error e)
    (ha : a < maxRetries) (hr : isRetryableError e = true) :
    makeApiRequest resp a
      = ((makeApiRequest resp (a + 1)).1,
         (makeApiRequest resp (a + 1)).2.1 + 1,
         retryDelay * a :: (makeApiRequest resp (a + 1)).2.2) := by
  conv_lhs => rw [makeApiRequest.eq_def]
  rw [h]
  exact dif_pos ⟨ha, hr⟩

/-- C3: `makeApiRequest` makes at most 3 attempts; when every attempt
fails retryably it makes exactly 3 attempts awaiting linear backoff
delays of 1000 ms then 2000 ms, and never a 4th; a non-retryable
failure of the first attempt ends the sequence immediately with that
error and no delay. -/
theorem retry_policy (resp : Nat → Except ApiError String) :
    (makeApiRequest resp 1).2.1 ≤ 3
    ∧ ((∀ n, 1 ≤ n → n ≤ 3 →
          ∃ e, resp n = Except.error e ∧ isRetryableError e = true) →
        (makeApiRequest resp 1).2.1 = 3
        ∧ (makeApiRequest resp 1).2.2 = [1000, 2000])
    ∧ (∀ e, resp 1 = Except.error e → isRetryableError e = false →
        makeApiRequest resp 1 = (Except.error e, 1, [])) := by
  have hmax : maxRetries = 3 := rfl
  have h3 : (makeApiRequest resp 3).2.1 = 1 := by
    cases h : resp 3 with
    | ok c => rw [makeApiRequest_ok resp 3 c h]
    | error e =>
      rw [makeApiRequest_stop resp 3 e h (by rw [hmax]; simp)]
  have h2 : (makeApiRequest resp 2).2.1 ≤ 2 := by
    cases h : resp 2 with
    | ok c =>
      have h1 : (makeApiRequest resp 2).2.1 = 1 := by
        rw [makeApiRequest_ok resp 2 c h]
      omega
    | error e =>
      cases hr : isRetryableError e with
      | false =>
        have h1 : (makeApiRequest resp 2).2.1 = 1 := by
          rw [makeApiRequest_stop resp 2 e h (by rw [hr]; simp)]
        omega
      | true =>
        have hstep : (makeApiRequest resp 2).2.1 = (makeApiRequest resp (2 + 1)).2.1 + 1 := by
          rw [makeApiRequest_retry resp 2 e h (by rw [hmax]; omega) hr]
        norm_num at hstep
        omega
  refine ⟨?_, ?_, ?_⟩
  · cases h : resp 1 with
    | ok c =>
      have h1 : (makeApiRequest resp 1).2.1 = 1 := by
        rw [makeApiRequest_ok resp 1 c h]
      omega
    | error e =>
      cases hr : isRetryableError e with
      | false =>
        have h1 : (makeApiRequest resp 1).2.1 = 1 := by
          rw [makeApiRequest_stop resp 1 e h (by rw [hr]; simp)]
        omega
      | true =>
        have hstep : (makeApiRequest resp 1).2.1 = (makeApiRequest resp (1 + 1)).2.1 + 1 := by
          rw [makeApiRequest_retry resp 1 e h (by rw [hmax]; omega) hr]
        norm_num at hstep
        omega
  · intro hall
    obtain ⟨e1, he1, hr1⟩ := hall 1 (by omega) (by omega)
    obtain ⟨e2, he2, hr2⟩ := hall 2 (by omega) (by omega)
    obtain ⟨e3, he3, hr3⟩ := hall 3 (by omega) (by omega)
    have s3 : makeApiRequest resp 3 = (Except.error e3, 1, []) :=
      makeApiRequest_stop resp 3 e3 he3 (by rw [hmax]; simp)
    have s2 : makeApiRequest resp 2 = (Except.error e3, 2, [2000]) := by
      rw [makeApiRequest_retry resp 2 e2 he2 (by rw [hmax]; omega) hr2]
      norm_num [s3, retryDelay]
    have s1 : makeApiRequest resp 1 = (Except.error e3, 3, [1000, 2000]) := by
      rw [makeApiRequest_retry resp 1 e1 he1 (by rw [hmax]; omega) hr1]
      norm_num [s2, retryDelay]
    rw [s1]
    exact ⟨rfl, rfl⟩
  · intro e he hr
    exact makeApiRequest_stop resp 1 e he (by rw [hr]; simp)

/-- Witness for C3: an always-503 client is called exactly 3 times with
delays 1000 ms and 2000 ms; an always-401 client is called once. -/
theorem retry_policy_witness :
    (makeApiRequest (fun _ => Except.error ⟨some 503, "Service Unavailable"⟩) 1).2.1 = 3
    ∧ (makeApiRequest (fun _ => Except.error ⟨some 503, "Service Unavailable"⟩) 1).2.2
        = [1000, 2000]
    ∧ makeApiRequest (fun _ => Except.error ⟨some 401, "Unauthorized"⟩) 1
        = (Except.error ⟨some 401, "Unauthorized"⟩, 1, []) := by
  have hretry := (retry_policy (fun _ => Except.error ⟨some 503, "Service Unavailable"⟩)).2.1
    (fun n _ _ => ⟨⟨some 503, "Service Unavailable"⟩, rfl, by decide⟩)
  have hstop := (retry_policy (fun _ => Except.error ⟨some 401, "Unauthorized"⟩)).2.2
    ⟨some 401, "Unauthorized"⟩ rfl (by decide)
  exact ⟨hretry.1, hretry.2, hstop⟩

/-! ## C4: fallback reply on unrecoverable failure -/

theorem isPrefixOf_append_self (pat v : List Char) :
    pat.isPrefixOf (pat ++ v) = true := by
  induction pat with
  | nil => cases v <;> rfl
  | cons p ps ih => simp [List.isPrefixOf, ih]

theorem containsSubList_mid (pat u v : List Char) :
    containsSubList pat (u ++ (pat ++ v)) = true := by
  induction u with
  | nil =>
    cases pat with
    | nil =>
      cases v with
      | nil => rfl
      | cons c cs => simp [containsSubList, List.isPrefixOf]
    | cons p ps =>
      simp [containsSubList, isPrefixOf_append_self]
  | cons c u ih =>
    simp [containsSubList, ih]

theorem strContains_mid (a b c : String) : strContains (a ++ (b ++ c)) b = true := by
  show containsSubList b.data (a ++ (b ++ c)).data = true
  have hd : (a ++ (b ++ c)).data = a.data ++ (b.data ++ c.data) := by
    simp
  rw [hd]
  exact containsSubList_mid b.data a.data c.data

/-- C4: `generateResponse` never propagates a failure — whenever the
retried API call sequence ends in an error (retries exhausted or a
non-retryable failure), the caller receives the deterministic
tenant-branded fallback string, and that string contains the tenant's
primary public URL (the first element of the configuration's `urls`
list) whenever one is present. -/
theorem generate_fallback (apiKey : String)
    (resp : List ChatMsg → Nat → Except ApiError String) (u : String)
    (hist : List Exchange) (cfg : CompanyConfig) (r : Fin 4) (e : ApiError)
    (hk : apiKey ≠ dummyApiKey)
    (hfail : (makeApiRequest (resp (buildMessageContext (buildSystemPrompt cfg) hist u)) 1).1
        = Except.error e) :
    (generateResponse apiKey resp u hist cfg r).reply = getFallbackResponse cfg
    ∧ ∀ url rest, cfg.urls = url :: rest → url ≠ "" →
        strContains (getFallbackResponse cfg) url = true := by
  constructor
  · simp only [generateResponse, if_neg hk]
    rcases hmk : makeApiRequest (resp (buildMessageContext (buildSystemPrompt cfg) hist u)) 1
      with ⟨res, n, ds⟩
    rw [hmk] at hfail
    have hres : res = Except.error e := hfail
    subst hres
    rfl
  · intro url rest hurls hne
    have hpu : primaryUrl cfg.urls = url := by
      rw [hurls, primaryUrl, if_neg hne]
    rw [getFallbackResponse, hpu]
    simp only [String.append_assoc]
    exact strContains_mid _ _ _

/-- Witness for C4: a non-retryable 400 failure yields the Vanguard
fallback string containing the primary URL. -/
theorem generate_fallback_witness :
    (generateResponse "real-key" (fun _ _ => Except.error ⟨some 400, "Bad Request"⟩)
        "hi" [] ⟨"Vanguard", "d", "i", "b", ["https://investor.vanguard.com"], [], [], "s"⟩
        0).reply
      = getFallbackResponse
          ⟨"Vanguard", "d", "i", "b", ["https://investor.vanguard.com"], [], [], "s"⟩
    ∧ strContains
        (getFallbackResponse
          ⟨"Vanguard", "d", "i", "b", ["https://investor.vanguard.com"], [], [], "s"⟩)
        "https://investor.vanguard.com" = true := by
  have hstop : (makeApiRequest
      ((fun (_ : List ChatMsg) (_ : Nat) => Except.error (⟨some 400, "Bad Request"⟩ : ApiError))
        (buildMessageContext
          (buildSystemPrompt ⟨"Vanguard", "d", "i", "b", ["https://investor.vanguard.com"], [], [], "s"⟩)
          [] "hi")) 1).1 = Except.error ⟨some 400, "Bad Request"⟩ := by
    rw [makeApiRequest_stop _ 1 ⟨some 400, "Bad Request"⟩ rfl (by decide)]
  have h := generate_fallback "real-key"
    (fun _ _ => Except.error ⟨some 400, "Bad Request"⟩) "hi" []
    ⟨"Vanguard", "d", "i", "b", ["https://investor.vanguard.com"], [], [], "s"⟩ 0
    ⟨some 400, "Bad Request"⟩ (by decide) hstop
  exact ⟨h.1, h.2 "https://investor.vanguard.com" [] rfl (by decide)⟩

/-! ## C7: updateSession refreshes last-activity and expiry -/

theorem lookup_filter_ne {β : Type} (a : List (String × β)) (k k' : String)
    (h : k' ≠ k) :
    (a.filter (fun kv => kv.1 != k)).lookup k' = a.lookup k' := by
  induction a with
  | nil => rfl
  | cons hd tl ih =>
    obtain ⟨x, v⟩ := hd
    by_cases hxk : x = k
    · subst hxk
      have hk' : (k' == x) = false := by simpa using h
      simp [List.filter_cons, List.lookup, hk', ih]
    · have hx : (x != k) = true := by simpa using hxk
      by_cases hk'x : k' = x
      · subst hk'x
        simp [List.filter_cons, hx, List.lookup]
      · have hk'x' : (k' == x) = false := by simpa using hk'x
        simp [List.filter_cons, hx, List.lookup, hk'x', ih]

theorem lookup_setAttr_self (a : List (String × AttrVal)) (k : String) (v : AttrVal) :
    (setAttr a k v).lookup k = some v := by
  simp [setAttr, List.lookup]

theorem lookup_setAttr_ne (a : List (String × AttrVal)) (k k' : String) (v : AttrVal)
    (h : k' ≠ k) :
    (setAttr a k v).lookup k' = a.lookup k' := by
  have hk' : (k' == k) = false := by simpa using h
  simp only [setAttr, List.lookup, hk']
  exact lookup_filter_ne a k k' h

theorem placeholderValue_of_unused (updateData : List (String × AttrVal)) (now : Nat)
    (ph : String) (hph : ∀ kv ∈ updateData, phName kv.1 ≠ ph) :
    placeholderValue updateData now ph
      = (if ph = ":lastActivity" then some (AttrVal.num now)
         else if ph = ":ttl" then some (AttrVal.num (now + sessionTTL))
         else none) := by
  unfold placeholderValue
  have hnone : updateData.reverse.find? (fun kv => phName kv.1 = ph) = none := by
    rw [List.find?_eq_none]
    intro x hx
    simpa using hph x (List.mem_reverse.mp hx)
  rw [hnone]

theorem updateSession_ok (attrs updateData : List (String × AttrVal)) (now : Nat)
    (hnd : (updateData.map Prod.fst).Nodup)
    (hres : ∀ kv ∈ updateData, kv.1 ≠ "LastActivity" ∧ kv.1 ≠ "TTL") :
    updateSession attrs updateData now
      = Except.ok (setAttr (setAttr
          ((updateData.map (fun kv => (kv.1, phName kv.1))).foldl
            (fun acc c => setAttr acc c.1
              ((placeholderValue updateData now c.2).getD (AttrVal.num 0))) attrs)
          "LastActivity" ((placeholderValue updateData now ":lastActivity").getD (AttrVal.num 0)))
          "TTL" ((placeholderValue updateData now ":ttl").getD (AttrVal.num 0))) := by
  have hpaths : ((setClauses updateData).map Prod.fst).Nodup := by
    have hmap : (setClauses updateData).map Prod.fst
        = updateData.map Prod.fst ++ ["LastActivity", "TTL"] := by
      simp [setClauses, List.map_append, List.map_map]
    rw [hmap, List.nodup_append]
    refine ⟨hnd, by simp, ?_⟩
    intro a ha
    obtain ⟨kv, hkv, rfl⟩ := List.mem_map.mp ha
    have := hres kv hkv
    simp [this.1, this.2]
  rw [updateSession, if_pos hpaths, setClauses, List.foldl_append]
  rfl

/-- Counterexample to C7 as stated: an update landing in the same clock
second as the previous refresh (previous last-activity 100 s, previous
expiry 3700 s, update at 100 s) stores the same expiry 3700 again — the
post-update expiry is not strictly greater than the pre-update one. -/
theorem updateSession_same_second_counterexample :
    updateSession [("TTL", AttrVal.num 3700), ("LastActivity", AttrVal.num 100)] [] 100
      = Except.ok [("TTL", AttrVal.num 3700), ("LastActivity", AttrVal.num 100)]
    ∧ ¬ (3700 : Nat) < 3700 := by
  exact ⟨by rfl, by omega⟩

/-- C7 (amended): for update fields that neither name nor alias the
reserved `LastActivity`/`TTL` attributes (as in every call the handler
makes), `updateSession` merges the fields and unconditionally stores
last-activity = now and expiry = now + the fixed 1-hour window, so the
post-update expiry equals the post-update last-activity plus the
window; it is ≥ the pre-update expiry whenever the clock has not gone
backwards since the previous refresh, and strictly greater exactly when
the clock advanced — an update within the same second leaves the expiry
unchanged rather than strictly increasing it. -/
theorem updateSession_refresh (attrs updateData : List (String × AttrVal))
    (now t0 a0 : Nat)
    (hnd : (updateData.map Prod.fst).Nodup)
    (hres : ∀ kv ∈ updateData, kv.1 ≠ "LastActivity" ∧ kv.1 ≠ "TTL")
    (hph : ∀ kv ∈ updateData, phName kv.1 ≠ ":lastActivity" ∧ phName kv.1 ≠ ":ttl")
    (_hTTL : attrs.lookup "TTL" = some (AttrVal.num t0))
    (hinv : t0 = a0 + sessionTTL) (hclock : a0 ≤ now) :
    (updateSession attrs updateData now).map (fun out => out.lookup "TTL")
        = Except.ok (some (AttrVal.num (now + sessionTTL)))
    ∧ (updateSession attrs updateData now).map (fun out => out.lookup "LastActivity")
        = Except.ok (some (AttrVal.num now))
    ∧ t0 ≤ now + sessionTTL
    ∧ (a0 < now → t0 < now + sessionTTL)
    ∧ (a0 = now → t0 = now + sessionTTL) := by
  rw [updateSession_ok attrs updateData now hnd hres]
  refine ⟨?_, ?_, by omega, by omega, by omega⟩
  · simp only [Except.map, lookup_setAttr_self]
    rw [placeholderValue_of_unused updateData now ":ttl"
      (fun kv hkv => (hph kv hkv).2)]
    rfl
  · simp only [Except.map]
    rw [lookup_setAttr_ne _ _ _ _ (by decide), lookup_setAttr_self,
      placeholderValue_of_unused updateData now ":lastActivity"
        (fun kv hkv => (hph kv hkv).1)]
    rfl

/-- Witness for the amended C7: updating the conversation history one
clock-second window later refreshes last-activity to 150 and expiry to
3750 > 3700. -/
theorem updateSession_refresh_witness :
    (updateSession [("TTL", AttrVal.num 3700), ("LastActivity", AttrVal.num 100)]
        [("conversationHistory", AttrVal.str "h")] 150).map (fun out => out.lookup "TTL")
      = Except.ok (some (AttrVal.num 3750))
    ∧ (updateSession [("TTL", AttrVal.num 3700), ("LastActivity", AttrVal.num 100)]
        [("conversationHistory", AttrVal.str "h")] 150).map
          (fun out => out.lookup "LastActivity")
      = Except.ok (some (AttrVal.num 150))
    ∧ (3700 : Nat) < 3750 := by
  have h := updateSession_refresh
    [("TTL", AttrVal.num 3700), ("LastActivity", AttrVal.num 100)]
    [("conversationHistory", AttrVal.str "h")] 150 3700 100
    (by decide) (by decide) (by decide) (by decide) (by decide) (by omega)
  exact ⟨h.1, h.2.1, h.2.2.2.1 (by omega)⟩

/-! ## C5: lemmas on the sanitizer scanners -/

theorem isPrefixCI_length_le (p l : List Char) (h : isPrefixCI p l = true) :
    p.length ≤ l.length := by
  induction p generalizing l with
  | nil => simp
  | cons a as ih =>
    cases l with
    | nil => simp [isPrefixCI] at h
    | cons c cs =>
      simp only [isPrefixCI, Bool.and_eq_true] at h
      simp only [List.length_cons]
      exact Nat.succ_le_succ (ih cs h.2)

theorem isPrefixCI_append (p l v : List Char) (h : isPrefixCI p l = true) :
    isPrefixCI p (l ++ v) = true := by
  induction p generalizing l with
  | nil => rfl
  | cons a as ih =>
    cases l with
    | nil => simp [isPrefixCI] at h
    | cons c cs =>
      simp only [isPrefixCI, Bool.and_eq_true] at h
      simp only [List.cons_append, isPrefixCI, h.1, Bool.true_and]
      exact ih cs h.2

theorem isPrefixCI_append_pattern (p q l : List Char)
    (h : isPrefixCI (p ++ q) l = true) :
    isPrefixCI q (l.drop p.length) = true := by
  induction p generalizing l with
  | nil => simpa using h
  | cons a as ih =>
    cases l with
    | nil => simp [isPrefixCI] at h
    | cons c cs =>
      simp only [List.cons_append, isPrefixCI, Bool.and_eq_true] at h
      simpa using ih cs h.2

theorem isPrefixCI_pattern_left (p q l : List Char)
    (h : isPrefixCI (p ++ q) l = true) :
    isPrefixCI p l = true := by
  induction p generalizing l with
  | nil => rfl
  | cons a as ih =>
    cases l with
    | nil => simp [isPrefixCI] at h
    | cons c cs =>
      simp only [List.cons_append, isPrefixCI, Bool.and_eq_true] at h ⊢
      exact ⟨h.1, ih cs h.2⟩

theorem wsThen_append (ch : Char) (l v : List Char) (h : wsThen ch l = true) :
    wsThen ch (l ++ v) = true := by
  induction l with
  | nil => simp [wsThen] at h
  | cons c cs ih =>
    by_cases hc : c = ch
    · simp [wsThen, hc]
    · by_cases hw : isJsWs c
      · rw [wsThen, if_neg hc, if_pos hw] at h
        simp only [List.cons_append]
        rw [wsThen, if_neg hc, if_pos hw]
        exact ih h
      · rw [wsThen, if_neg hc, if_neg hw] at h
        cases h

theorem matchesWordWs_append (word : List Char) (ch : Char) (l v : List Char)
    (h : matchesWordWs word ch l = true) :
    matchesWordWs word ch (l ++ v) = true := by
  simp only [matchesWordWs, Bool.and_eq_true] at h ⊢
  have hlen := isPrefixCI_length_le _ _ h.1
  refine ⟨isPrefixCI_append _ _ _ h.1, ?_⟩
  rw [List.drop_append_eq_append_drop]
  have h0 : word.length - l.length = 0 := by omega
  rw [h0, List.drop_zero]
  exact wsThen_append _ _ _ h.2

theorem containsWordWs_append_right (word : List Char) (ch : Char) (l v : List Char)
    (h : containsWordWs word ch l = true) :
    containsWordWs word ch (l ++ v) = true := by
  induction l with
  | nil => simp [containsWordWs] at h
  | cons c cs ih =>
    simp only [containsWordWs, Bool.or_eq_true] at h
    rcases h with h | h
    · have hm := matchesWordWs_append word ch (c :: cs) v h
      simp only [List.cons_append] at hm
      simp [containsWordWs, hm]
    · simp [containsWordWs, ih h]

theorem containsWordWs_append_left (word : List Char) (ch : Char) (u l : List Char)
    (h : containsWordWs word ch l = true) :
    containsWordWs word ch (u ++ l) = true := by
  induction u with
  | nil => simpa using h
  | cons c cs ih => simp [containsWordWs, ih]

theorem containsCI_append_right (pat l v : List Char)
    (h : containsCI pat l = true) :
    containsCI pat (l ++ v) = true := by
  induction l with
  | nil =>
    simp only [containsCI] at h
    cases pat with
    | nil => cases v <;> simp [containsCI, isPrefixCI]
    | cons p ps => simp [isPrefixCI] at h
  | cons c cs ih =>
    simp only [containsCI, Bool.or_eq_true] at h
    rcases h with h | h
    · have hm := isPrefixCI_append pat (c :: cs) v h
      simp only [List.cons_append] at hm
      simp [containsCI, hm]
    · simp [containsCI, ih h]

theorem containsCI_append_left (pat u l : List Char)
    (h : containsCI pat l = true) :
    containsCI pat (u ++ l) = true := by
  induction u with
  | nil => simpa using h
  | cons c cs ih => simp [containsCI, ih]

theorem matchesWordWs_of_drop (word : List Char) (ch : Char) (l : List Char)
    (k : Nat) (h : matchesWordWs word ch (l.drop k) = true) :
    containsWordWs word ch l = true := by
  induction k generalizing l with
  | zero =>
    cases l with
    | nil => simp [matchesWordWs, wsThen] at h
    | cons c cs =>
      rw [List.drop_zero] at h
      simp [containsWordWs, h]
  | succ k ih =>
    cases l with
    | nil => simp [matchesWordWs, wsThen] at h
    | cons c cs =>
      rw [List.drop_succ_cons] at h
      simp [containsWordWs, ih cs h]

theorem scriptColon_of_jsPrefix (l : List Char)
    (h : isPrefixCI ("javascript:".toList) l = true) :
    matchesWordWs ("script".toList) ':' (l.drop 4) = true := by
  have hsplit : ("javascript:".toList) = ("java".toList) ++ ("script".toList ++ [':']) := by
    decide
  rw [hsplit] at h
  have h1 := isPrefixCI_append_pattern ("java".toList) ("script".toList ++ [':']) l h
  have hlen4 : ("java".toList).length = 4 := by decide
  rw [hlen4] at h1
  simp only [matchesWordWs, Bool.and_eq_true]
  refine ⟨isPrefixCI_pattern_left _ _ _ h1, ?_⟩
  have h2 := isPrefixCI_append_pattern ("script".toList) [':'] (l.drop 4) h1
  have hlen6 : ("script".toList).length = 6 := by decide
  rw [hlen6] at h2 ⊢
  cases hx : (l.drop 4).drop 6 with
  | nil => rw [hx] at h2; simp [isPrefixCI] at h2
  | cons c cs =>
    rw [hx] at h2
    simp only [isPrefixCI, Bool.and_eq_true] at h2
    have hup : upChar ':' = ':' := by decide
    have hc := h2.1
    simp only [charCI, hup, Bool.or_self, decide_eq_true_eq] at hc
    rw [wsThen, if_pos hc]

theorem stripJsProto_eq_self (l : List Char)
    (h : containsWordWs ("script".toList) ':' l = false) :
    stripJsProto l = l := by
  induction l using stripJsProto.induct with
  | case1 => rw [stripJsProto.eq_def]
  | case2 c cs hpre =>
    exfalso
    have hm := scriptColon_of_jsPrefix (c :: cs) hpre
    have hcw := matchesWordWs_of_drop ("script".toList) ':' (c :: cs) 4 hm
    rw [h] at hcw
    cases hcw
  | case3 c cs hpre ih =>
    simp only [containsWordWs, Bool.or_eq_false_iff] at h
    rw [stripJsProto.eq_def]
    simp only [if_neg hpre]
    rw [ih h.2]

/-! ## C5: trim lemmas -/

theorem trimChars_decomp (l : List Char) :
    ∃ u v, l = u ++ trimChars l ++ v := by
  refine ⟨l.takeWhile isJsWs,
    ((l.dropWhile isJsWs).reverse.takeWhile isJsWs).reverse, ?_⟩
  conv_lhs => rw [← List.takeWhile_append_dropWhile (p := isJsWs) (l := l)]
  rw [List.append_assoc]
  congr 1
  conv_lhs => rw [← List.reverse_reverse (l.dropWhile isJsWs),
    ← List.takeWhile_append_dropWhile (p := isJsWs)
      (l := (l.dropWhile isJsWs).reverse)]
  rw [List.reverse_append]
  rfl

theorem mem_trimChars (l : List Char) (c : Char) (h : c ∈ trimChars l) : c ∈ l := by
  obtain ⟨u, v, hd⟩ := trimChars_decomp l
  rw [hd]
  simp only [List.mem_append]
  exact Or.inl (Or.inr h)

theorem trimChars_length_le (l : List Char) : (trimChars l).length ≤ l.length := by
  have h1 : ((l.dropWhile isJsWs).reverse.dropWhile isJsWs).length
      ≤ (l.dropWhile isJsWs).reverse.length :=
    (List.dropWhile_sublist isJsWs).length_le
  have h2 : (l.dropWhile isJsWs).length ≤ l.length :=
    (List.dropWhile_sublist isJsWs).length_le
  simp only [trimChars, List.length_reverse] at h1 ⊢
  omega

theorem dropWhile_head_not (p : Char → Bool) (l : List Char) (c : Char)
    (cs : List Char) (h : l.dropWhile p = c :: cs) : p c = false := by
  induction l with
  | nil => simp [List.dropWhile] at h
  | cons a as ih =>
    by_cases hpa : p a = true
    · rw [List.dropWhile_cons, if_pos hpa] at h
      exact ih h
    · rw [List.dropWhile_cons, if_neg hpa] at h
      injection h with h1 _
      subst h1
      simpa using hpa

theorem dropWhile_idem (p : Char → Bool) (l : List Char) :
    (l.dropWhile p).dropWhile p = l.dropWhile p := by
  cases h : l.dropWhile p with
  | nil => rfl
  | cons c cs =>
    have hc := dropWhile_head_not p l c cs h
    rw [List.dropWhile_cons, if_neg (by simp [hc])]

theorem trimChars_idem (l : List Char) : trimChars (trimChars l) = trimChars l := by
  have hlead : (trimChars l).dropWhile isJsWs = trimChars l := by
    cases hB : trimChars l with
    | nil => rfl
    | cons c bs =>
      have hA : l.dropWhile isJsWs
          = trimChars l ++ ((l.dropWhile isJsWs).reverse.takeWhile isJsWs).reverse := by
        conv_lhs => rw [← List.reverse_reverse (l.dropWhile isJsWs),
          ← List.takeWhile_append_dropWhile (p := isJsWs)
            (l := (l.dropWhile isJsWs).reverse)]
        rw [List.reverse_append]
        rfl
      rw [hB, List.cons_append] at hA
      have hc : isJsWs c = false := dropWhile_head_not isJsWs l c _ hA
      rw [List.dropWhile_cons, if_neg (by simp [hc])]
  have htail : (trimChars l).reverse.dropWhile isJsWs = (trimChars l).reverse := by
    show ((((l.dropWhile isJsWs).reverse.dropWhile isJsWs).reverse).reverse.dropWhile isJsWs)
        = (((l.dropWhile isJsWs).reverse.dropWhile isJsWs).reverse).reverse
    rw [List.reverse_reverse, dropWhile_idem]
  show (((trimChars l).dropWhile isJsWs).reverse.dropWhile isJsWs).reverse = trimChars l
  rw [hlead, htail, List.reverse_reverse]

theorem stripAngles_eq_self (l : List Char)
    (h : ∀ c ∈ l, ¬(c = '<' ∨ c = '>')) :
    stripAngles l = l := by
  unfold stripAngles
  apply List.filter_eq_self.mpr
  intro c hc
  simpa using h c hc

theorem toList_length (s : String) : s.toList.length = s.length := rfl

theorem asString_length (l : List Char) : (l.asString).length = l.length := rfl

/-! ## C5: harmful-content transfer through trimming -/

theorem containsWordWs_infix (word : List Char) (ch : Char) (u mid v : List Char)
    (h : containsWordWs word ch mid = true) :
    containsWordWs word ch (u ++ mid ++ v) = true := by
  rw [List.append_assoc]
  exact containsWordWs_append_left _ _ _ _ (containsWordWs_append_right _ _ _ _ h)

theorem containsCI_infix (pat u mid v : List Char)
    (h : containsCI pat mid = true) :
    containsCI pat (u ++ mid ++ v) = true := by
  rw [List.append_assoc]
  exact containsCI_append_left _ _ _ (containsCI_append_right _ _ _ h)

theorem harmful_trim_false (t : String)
    (hh : containsHarmfulContent t = false) :
    containsHarmfulContent ((trimChars t.toList).asString) = false := by
  obtain ⟨u, v, hd⟩ := trimChars_decomp t.toList
  unfold containsHarmfulContent at hh ⊢
  rw [List.toList_asString]
  simp only [Bool.or_eq_false_iff] at hh
  obtain ⟨⟨⟨⟨h1, h2⟩, h3⟩, h4⟩, h5⟩ := hh
  have key : ∀ (w : List Char) (ch : Char),
      containsWordWs w ch t.toList = false →
      containsWordWs w ch (trimChars t.toList) = false := by
    intro w ch hf
    cases hc : containsWordWs w ch (trimChars t.toList) with
    | false => rfl
    | true =>
      have htr : containsWordWs w ch t.toList = true := by
        rw [hd]
        exact containsWordWs_infix w ch u _ v hc
      rw [hf] at htr
      cases htr
  have keyCI : ∀ pat : List Char,
      containsCI pat t.toList = false →
      containsCI pat (trimChars t.toList) = false := by
    intro pat hf
    cases hc : containsCI pat (trimChars t.toList) with
    | false => rfl
    | true =>
      have htr : containsCI pat t.toList = true := by
        rw [hd]
        exact containsCI_infix pat u _ v hc
      rw [hf] at htr
      cases htr
  simp only [Bool.or_eq_false_iff]
  exact ⟨⟨⟨⟨key _ _ h1, key _ _ h2⟩, keyCI _ h3⟩, key _ _ h4⟩, key _ _ h5⟩

/-- On text accepted by the validator (no harmful pattern, length ≤
500) that contains no angle brackets, sanitization is plain trimming. -/
theorem sanitize_of_accepted (t : String)
    (hang : ∀ c ∈ t.toList, ¬(c = '<' ∨ c = '>'))
    (hlen : t.length ≤ 500)
    (hh : containsHarmfulContent t = false) :
    sanitizeText t = (trimChars t.toList).asString := by
  unfold sanitizeText
  have hang' : ∀ c ∈ trimChars t.toList, ¬(c = '<' ∨ c = '>') :=
    fun c hc => hang c (mem_trimChars _ _ hc)
  rw [stripAngles_eq_self _ hang']
  have hns : containsWordWs ("script".toList) ':' (trimChars t.toList) = false := by
    have htr := harmful_trim_false t hh
    unfold containsHarmfulContent at htr
    rw [List.toList_asString] at htr
    simp only [Bool.or_eq_false_iff] at htr
    exact htr.1.1.1.1
  rw [stripJsProto_eq_self _ hns]
  have hl : (trimChars t.toList).length ≤ 500 := by
    have h1 := trimChars_length_le t.toList
    have h2 : t.toList.length = t.length := toList_length t
    omega
  rw [List.take_of_length_le hl]

/-! ## C5: idempotence of message validation -/

theorem validateMessage_some (m : Message) (t : String) (ht : m.text = some t) :
    validateMessage m
      = if t.length = 0 then
          Except.error "Message text is required and must be a string"
        else if 500 < t.length then Except.error "Message too long"
        else if containsHarmfulContent t then
          Except.error "Message contains inappropriate content"
        else Except.ok { m with text := some (sanitizeText t) } := by
  rw [validateMessage.eq_def, ht]

/-- Counterexample to C5 as stated: the message text `"< a"` is
accepted and sanitized to `" a"` (stripping `<` exposes interior
whitespace), but re-validating the accepted result trims again and
yields `"a"` — so `validateMessage` applied to its own accepted output
does not return it unchanged. -/
theorem validate_not_idempotent_counterexample :
    validateMessage ⟨some "< a", none⟩ = Except.ok ⟨some " a", none⟩
    ∧ validateMessage ⟨some " a", none⟩ = Except.ok ⟨some "a", none⟩
    ∧ validateMessage ⟨some " a", none⟩ ≠ Except.ok ⟨some " a", none⟩ := by
  have hs1 : sanitizeText "< a" = " a" := by
    unfold sanitizeText
    rw [show stripAngles (trimChars "< a".toList) = " a".toList from by decide]
    rw [stripJsProto_eq_self _ (by decide)]
    decide
  have hs2 : sanitizeText " a" = "a" := by
    unfold sanitizeText
    rw [show stripAngles (trimChars " a".toList) = "a".toList from by decide]
    rw [stripJsProto_eq_self _ (by decide)]
    decide
  have hv1 : validateMessage ⟨some "< a", none⟩
      = Except.ok ⟨some (sanitizeText "< a"), none⟩ := by rfl
  have hv2 : validateMessage ⟨some " a", none⟩
      = Except.ok ⟨some (sanitizeText " a"), none⟩ := by rfl
  refine ⟨?_, ?_, ?_⟩
  · rw [hv1, hs1]
  · rw [hv2, hs2]
  · rw [hv2, hs2]
    intro hcon
    have := Except.ok.inj hcon
    simp [Message.mk.injEq] at this

/-- C5 (amended): validation is idempotent on accepted messages whose
text contains no angle brackets and does not trim to the empty string:
for such a message, re-validating the accepted result accepts it again
and returns it unchanged.  (Without these provisos idempotence fails:
stripping `<`/`>` can expose leading/trailing whitespace or create a
denylisted substring, and an all-whitespace text sanitizes to the empty
string, which the validator rejects.) -/
theorem validate_idempotent_amended (m m' : Message) (t : String)
    (ht : m.text = some t)
    (hang : ∀ c ∈ t.toList, ¬(c = '<' ∨ c = '>'))
    (htrim : trimChars t.toList ≠ [])
    (hok : validateMessage m = Except.ok m') :
    validateMessage m' = Except.ok m' := by
  rw [validateMessage_some m t ht] at hok
  by_cases h0 : t.length = 0
  · rw [if_pos h0] at hok; simp at hok
  rw [if_neg h0] at hok
  by_cases h5 : 500 < t.length
  · rw [if_pos h5] at hok; simp at hok
  rw [if_neg h5] at hok
  by_cases hhb : containsHarmfulContent t = true
  · rw [if_pos hhb] at hok; simp at hok
  rw [if_neg hhb] at hok
  have hh : containsHarmfulContent t = false := by
    cases hcb : containsHarmfulContent t with
    | false => rfl
    | true => exact absurd hcb hhb
  have hm' : { m with text := some (sanitizeText t) } = m' := Except.ok.inj hok
  have hsan : sanitizeText t = (trimChars t.toList).asString :=
    sanitize_of_accepted t hang (by omega) hh
  have hm't : m'.text = some (sanitizeText t) := by rw [← hm']
  rw [validateMessage_some m' (sanitizeText t) hm't]
  have hlen' : (sanitizeText t).length = (trimChars t.toList).length := by
    rw [hsan]
    exact asString_length _
  have h0' : ¬ (sanitizeText t).length = 0 := by
    rw [hlen']
    intro hz
    exact htrim (List.length_eq_zero.mp hz)
  rw [if_neg h0']
  have h5' : ¬ 500 < (sanitizeText t).length := by
    rw [hlen']
    have h1 := trimChars_length_le t.toList
    have h2 : t.toList.length = t.length := toList_length t
    omega
  rw [if_neg h5']
  have hharm' : ¬ containsHarmfulContent (sanitizeText t) = true := by
    rw [hsan, harmful_trim_false t hh]
    simp
  rw [if_neg hharm']
  have hfix : sanitizeText (sanitizeText t) = sanitizeText t := by
    rw [hsan]
    have hfa := sanitize_of_accepted ((trimChars t.toList).asString)
      (fun c hc => hang c (mem_trimChars _ _ (by rwa [List.toList_asString] at hc)))
      (by
        rw [asString_length]
        have h1 := trimChars_length_le t.toList
        have h2 : t.toList.length = t.length := toList_length t
        omega)
      (harmful_trim_false t hh)
    rw [hfa, List.toList_asString, trimChars_idem]
  rw [hfix]
  have exact_m' : { m' with text := some (sanitizeText t) } = m' := by
    cases m' with
    | mk tx sid =>
      have htx : tx = some (sanitizeText t) := hm't
      rw [htx]
  rw [exact_m']

/-- Witness for the amended C5 at a concrete accepted message. -/
theorem validate_idempotent_amended_witness :
    validateMessage ⟨some "hello", none⟩ = Except.ok ⟨some "hello", none⟩ := by
  have hs : sanitizeText "hello" = "hello" := by
    unfold sanitizeText
    rw [show stripAngles (trimChars "hello".toList) = "hello".toList from by decide]
    rw [stripJsProto_eq_self _ (by decide)]
    decide
  have hok : validateMessage ⟨some "hello", none⟩ = Except.ok ⟨some "hello", none⟩ := by
    have hv : validateMessage ⟨some "hello", none⟩
        = Except.ok ⟨some (sanitizeText "hello"), none⟩ := by rfl
    rw [hv, hs]
  exact validate_idempotent_amended ⟨some "hello", none⟩ ⟨some "hello", none⟩ "hello"
    rfl (by decide) (by decide) hok

end Sitebot
